import Mathlib

/-!
Verification of the pytregex core against its natural-language specification.

The definitions below are a shallow embedding of the three source files
`src/pytregex/tregex.py`, `src/pytregex/condition.py` and
`src/pytregex/node_descriptions.py`.  Python generators are rendered as
lists, Python dictionaries as insertion-ordered association lists, and
code paths that `raise` are rendered in the `Except String` monad.
The external `re.search` of the Python standard library and the
`parent`-pointer capability of the external `tree.py` are passed in as
oracle parameters, mirroring the spec's "external collaborator" boundary.
-/

namespace Pytregex

/-- Constituency tree: a node carries an optional label and an ordered list
of children.  This models the `Tree` capability set of spec section 3 that the
core consumes (`label`, `children`, `preorder_iter`). -/
inductive Tree where
  | node : Option String → List Tree → Tree
deriving Repr

mutual

/-- Decidable equality on trees (node identity in the Python sources is
modelled by structural equality of the embedded trees). -/
def treeDecEq : (t u : Tree) → Decidable (t = u)
  | .node l cs, .node m ds =>
    if h : l = m then
      match treeListDecEq cs ds with
      | isTrue h2 => isTrue (by rw [h, h2])
      | isFalse h2 => isFalse (fun he => h2 (by cases he; rfl))
    else isFalse (fun he => h (by cases he; rfl))

/-- Decidable equality on lists of trees. -/
def treeListDecEq : (ts us : List Tree) → Decidable (ts = us)
  | [], [] => isTrue rfl
  | [], _ :: _ => isFalse (fun he => by cases he)
  | _ :: _, [] => isFalse (fun he => by cases he)
  | t :: ts, u :: us =>
    match treeDecEq t u with
    | isFalse h => isFalse (fun he => h (by cases he; rfl))
    | isTrue h =>
      match treeListDecEq ts us with
      | isTrue h2 => isTrue (by rw [h, h2])
      | isFalse h2 => isFalse (fun he => h2 (by cases he; rfl))

end

instance : DecidableEq Tree := treeDecEq

/-- `label` attribute of a tree node. -/
def Tree.lab : Tree → Option String
  | .node l _ => l

/-- `children` attribute of a tree node. -/
def Tree.children : Tree → List Tree
  | .node _ cs => cs

mutual

/-- `preorder_iter`: lazy left-to-right preorder from this node, self first
(spec section 3), rendered as an eager list. -/
def Tree.preorder : Tree → List Tree
  | .node l cs => .node l cs :: preorderList cs

/-- Preorder traversal of a list of sibling subtrees, left to right. -/
def preorderList : List Tree → List Tree
  | [] => []
  | t :: ts => t.preorder ++ preorderList ts

end

/-- Modelled from the spec: `tree.py` is not under `src/`; the glossary
defines the basic category as "the label prefix before the first of
`-`, `=`, `#`". -/
def basicCatOf (s : String) : String :=
  s.takeWhile (fun c => !(c == '-' || c == '=' || c == '#'))

/-- Modelled from the spec: `basic_category` is derived from `label`
(spec section 3); an absent label yields an absent basic category. -/
def Tree.basicCategory (t : Tree) : Option String :=
  t.lab.map basicCatOf

/-- `getattr(node, "basic_category" if use_basic_cat else "label")`, the
attribute selection shared by all node predicates. -/
def getAttr (t : Tree) (useBasicCat : Bool) : Option String :=
  if useBasicCat then t.basicCategory else t.lab

/-! ## Node predicates (condition.py NODE_OP classes and tregex.py TregexMatcher) -/

/-- `condition.py` `NODE_ID.satisfies`: string equality on the selected
attribute, XORed with `under_negation`; an absent attribute returns
`under_negation`. -/
def NODE_ID_satisfies (t : Tree) (id : String) (under_negation use_basic_cat : Bool) : Bool :=
  match getAttr t use_basic_cat with
  | none => under_negation
  | some value => (value == id) != under_negation

/-- `tregex.py` `TregexMatcher.match_id` (textually identical to
`NODE_ID.satisfies` up to the flag name `is_negated`). -/
def tregexMatchId (t : Tree) (id : String) (is_negated use_basic_cat : Bool) : Bool :=
  match getAttr t use_basic_cat with
  | none => is_negated
  | some value => (value == id) != is_negated

/-- `tregex.py` `TregexMatcher.match_blank` / `condition.py` `NODE_ANY.satisfies`:
always true unless negated. -/
def matchBlank (is_negated : Bool) : Bool :=
  !is_negated

/-- `condition.py` `NODE_ROOT.satisfies`: `(node.parent is None) != under_negation`.
The parent pointer lives in the external `tree.py`, so it is supplied as the
oracle `parentIsNone`. -/
def NODE_ROOT_satisfies (parentIsNone : Tree → Bool) (t : Tree) (under_negation : Bool) : Bool :=
  (parentIsNone t) != under_negation

/-- The flag-stripping loop of `condition.py` `NODE_REGEX.satisfies`:
`current_flag = regex[-1]; while current_flag != "/": ...` walking the regex
from its last character.  The input is the reversed character list of the
regex; `acc` accumulates the flags in the order Python appends them
(rightmost character first).  A flag outside `"xi"` raises `ValueError`;
running out of characters raises Python's `IndexError`. -/
def stripRegexFlagsChecked : List Char → List Char → Except String (List Char × List Char)
  | [], _ => .error "string index out of range"
  | c :: rest, acc =>
    if c = '/' then .ok ((c :: rest).reverse, acc)
    else if c = 'x' ∨ c = 'i' then stripRegexFlagsChecked rest (acc ++ [c])
    else .error "Error!! Unsupported regexp flag"

/-- The flag-stripping loop of `tregex.py` `TregexMatcher.match_regex`:
same walk but without any flag validation. -/
def stripRegexFlagsUnchecked : List Char → List Char → Except String (List Char × List Char)
  | [], _ => .error "string index out of range"
  | c :: rest, acc =>
    if c = '/' then .ok ((c :: rest).reverse, acc)
    else stripRegexFlagsUnchecked rest (acc ++ [c])

/-- `regex = regex[1:-1]; if flag: regex = "(?" + "".join(set(flag)) + ")" + regex`.
Python's `set` iteration order is unspecified; duplicate flags are removed
keeping the first occurrence. -/
def assembleRegex (core : List Char) (flags : List Char) : List Char :=
  let body := (core.drop 1).dropLast
  if flags.isEmpty then body else '(' :: '?' :: flags.eraseDups ++ ')' :: body

/-- `condition.py` `NODE_REGEX.satisfies`.  `rs` is the oracle for the
external `re.search(pattern, value) is not None`. -/
def NODE_REGEX_satisfies (rs : String → String → Bool) (t : Tree) (regex : String)
    (under_negation use_basic_cat : Bool) : Except String Bool :=
  match getAttr t use_basic_cat with
  | none => .ok under_negation
  | some value =>
    match stripRegexFlagsChecked regex.data.reverse [] with
    | .error e => .error e
    | .ok (core, flags) =>
      .ok ((rs (String.mk (assembleRegex core flags)) value) != under_negation)

/-- `tregex.py` `TregexMatcher.match_regex`: identical except that the
flag-stripping loop performs no validation at all. -/
def tregexMatchRegex (rs : String → String → Bool) (t : Tree) (regex : String)
    (is_negated use_basic_cat : Bool) : Except String Bool :=
  match getAttr t use_basic_cat with
  | none => .ok is_negated
  | some value =>
    match stripRegexFlagsUnchecked regex.data.reverse [] with
    | .error e => .error e
    | .ok (core, flags) =>
      .ok ((rs (String.mk (assembleRegex core flags)) value) != is_negated)

/-! ## Backref dictionaries (`Dict[str, list]` with insertion order) -/

/-- A Python `dict` mapping names to node lists, as an insertion-ordered
association list with unique keys. -/
abbrev BMap := List (String × List Tree)

/-- `d[k] = v`: overwrite in place if the key exists, else append. -/
def bmapSet (d : BMap) (k : String) (v : List Tree) : BMap :=
  match d with
  | [] => [(k, v)]
  | (k', v') :: rest => if k' = k then (k', v) :: rest else (k', v') :: bmapSet rest k v

/-- `d.get(k, dflt)`. -/
def bmapGetD (d : BMap) (k : String) (dflt : List Tree) : List Tree :=
  match d with
  | [] => dflt
  | (k', v') :: rest => if k' = k then v' else bmapGetD rest k dflt

/-- `for name, node_list in other.items(): d[name] = node_list`
(the overwrite-merge of `match_and_conditions_cur_node`). -/
def bmapOverwrite (d other : BMap) : BMap :=
  other.foldl (fun acc kv => bmapSet acc kv.1 kv.2) d

/-- `for name, nodes in other.items(): d[name] = d.get(name, []) + nodes`
(the append-merge of `match_and_conditions` / `match_or_conditions` /
`match_optional_or_conditions`). -/
def bmapMergeAppend (d other : BMap) : BMap :=
  other.foldl (fun acc kv => bmapSet acc kv.1 (bmapGetD acc kv.1 [] ++ kv.2)) d

/-! ## tregex.py data model -/

/-- `tregex.py` `NamedNodes`: an optional name plus the list of nodes the
sub-pattern matched. -/
structure NamedNodesE where
  name : Option String
  nodes : List Tree

/-- `tregex.py` `AbstractRelationData` and its subclasses: the relation
predicate `condition_func(this, that)` (whose `op` and stored arguments
are already closed over) together with the `is_negated` / `is_optional`
flags. -/
structure RelData where
  condFunc : Tree → Tree → Bool
  isNegated : Bool
  isOptional : Bool

/-- `RelationData.__init__` as produced by the parser action `p_relation`:
both flags start out false. -/
def mkRelationData (f : Tree → Tree → Bool) : RelData :=
  ⟨f, false, false⟩

/-- `AbstractRelationData.toggle_negated` (parser action `p_not_relation_data`). -/
def RelData.toggleNegated (r : RelData) : RelData :=
  ⟨r.condFunc, !r.isNegated, r.isOptional⟩

/-- `AbstractRelationData.toggle_optional` (parser action `p_optional_relation_data`). -/
def RelData.toggleOptional (r : RelData) : RelData :=
  ⟨r.condFunc, r.isNegated, !r.isOptional⟩

/-- `tregex.py` `AndCondition`: copies `condition_func`, `is_negated`,
`is_optional` out of the relation data and pairs them with the right-hand
`NamedNodes`. -/
structure AndCond where
  condFunc : Tree → Tree → Bool
  isNegated : Bool
  isOptional : Bool
  namedNodes : NamedNodesE

/-- `AndCondition.__init__` (parser action `p_relation_data_named_nodes`). -/
def mkAndCondition (r : RelData) (nn : NamedNodesE) : AndCond :=
  ⟨r.condFunc, r.isNegated, r.isOptional, nn⟩

/-- The `AND_CONDITIONS` element union of `tregex.py`:
`AndCondition`, `NotAndCondition`, `OptionalAndCondition` and
`OptionalOrConditions`. -/
inductive CondElem where
  | and1 : AndCond → CondElem
  | notAnd : List CondElem → CondElem
  | optAnd : List CondElem → CondElem
  | optOr : List (List CondElem) → CondElem

/-! ## tregex.py TregexMatcher: leaf evaluation -/

/-- The loop body of `TregexMatcher._match_and_condition`: walk the candidate
nodes, and for each `that` satisfying the relation append `this` under
`this_name` and `that` under `that_name` while counting. -/
def matchPlainGo (this : Tree) (tn thatn : Option String) (f : Tree → Tree → Bool) :
    List Tree → Nat × BMap → Nat × BMap
  | [], acc => acc
  | that :: rest, (cnt, m) =>
    if f this that then
      let m1 := match tn with
        | some n => bmapSet m n (bmapGetD m n [] ++ [this])
        | none => m
      let m2 := match thatn with
        | some n => bmapSet m1 n (bmapGetD m1 n [] ++ [that])
        | none => m1
      matchPlainGo this tn thatn f rest (cnt + 1, m2)
    else matchPlainGo this tn thatn f rest (cnt, m)

/-- `TregexMatcher._match_and_condition`: the map is seeded with an empty
list for `this_name` and `that_name` before the loop runs. -/
def matchAndConditionPlain (this : Tree) (tn : Option String) (those : NamedNodesE)
    (f : Tree → Tree → Bool) : Nat × BMap :=
  let init := [tn, those.name].foldl
    (fun d n? => match n? with | some n => bmapSet d n [] | none => d) []
  matchPlainGo this tn those.name f those.nodes (0, init)

/-- `TregexMatcher._match_and_condition_not`: return `(0, empty)` on the first
satisfying candidate, `(1, empty)` if none satisfies. -/
def matchNotGo (this : Tree) (f : Tree → Tree → Bool) : List Tree → Nat × BMap
  | [] => (1, [])
  | that :: rest => if f this that then (0, []) else matchNotGo this f rest

/-- The accumulation loop of `TregexMatcher._match_and_condition_optional`. -/
def matchOptGo (this : Tree) (f : Tree → Tree → Bool) : List Tree → List Tree → List Tree
  | [], acc => acc
  | that :: rest, acc => matchOptGo this f rest (if f this that then acc ++ [that] else acc)

/-- `TregexMatcher._match_and_condition_optional`: multiplicity is always 1;
when the sub-pattern is named, every satisfying candidate is recorded. -/
def matchAndConditionOptional (this : Tree) (those : NamedNodesE)
    (f : Tree → Tree → Bool) : Nat × BMap :=
  match those.name with
  | none => (1, [])
  | some n => (1, [(n, matchOptGo this f those.nodes [])])

/-- `TregexMatcher.match_and_condition`: dispatch on the two flags; both set
raises `SystemExit`. -/
def matchAndCondition (this : Tree) (tn : Option String) (a : AndCond) :
    Except String (Nat × BMap) :=
  if a.isNegated && a.isOptional then
    .error "Error!!  Node cannot be both negated and optional."
  else if !a.isNegated && !a.isOptional then
    .ok (matchAndConditionPlain this tn a.namedNodes a.condFunc)
  else if a.isNegated then
    .ok (matchNotGo this a.condFunc a.namedNodes.nodes)
  else
    .ok (matchAndConditionOptional this a.namedNodes a.condFunc)

/-! ## tregex.py TregexMatcher: name bookkeeping -/

mutual

/-- `get_node_name` of a single `AND_CONDITIONS` element: the names of all
right-hand `NamedNodes` it contains, in generator order. -/
def namesOfElem : CondElem → List (Option String)
  | .and1 a => [a.namedNodes.name]
  | .notAnd cs => namesOfList cs
  | .optAnd cs => namesOfList cs
  | .optOr css => namesOfListList css

/-- `get_node_name` chained over a list of elements. -/
def namesOfList : List CondElem → List (Option String)
  | [] => []
  | c :: cs => namesOfElem c ++ namesOfList cs

/-- `OptionalOrConditions.get_node_name`: over every alternative. -/
def namesOfListList : List (List CondElem) → List (Option String)
  | [] => []
  | cs :: css => namesOfList cs ++ namesOfListList css

end

/-- `names = [this_name] if this_name is not None else []` at the top of
`match_and_conditions_cur_node`. -/
def names0 : Option String → List String
  | some n => [n]
  | none => []

/-- The name bookkeeping performed by `match_and_conditions_cur_node` before
it evaluates one conjunct: a `NotAndCondition` may not contain any name; a
named `AndCondition` may be neither negated nor a duplicate, and its name is
recorded. -/
def nameCheck (e : CondElem) (names : List String) : Except String (List String) :=
  match e with
  | .notAnd cs =>
    if (namesOfList cs).any Option.isSome then
      .error "Error!!  It is invalid to name a node that is under the scope of a negation operator."
    else .ok names
  | .and1 a =>
    match a.namedNodes.name with
    | none => .ok names
    | some n =>
      if a.isNegated then
        .error "Error!!  It is invalid to name a node that is under the scope of a negation operator."
      else if n ∈ names then
        .error "Error!!  The name has been assigned multiple times in a conjunction."
      else .ok (names ++ [n])
  | .optAnd _ => .ok names
  | .optOr _ => .ok names

/-- `match_optional_and_condition` / `match_optional_or_conditions` epilogue:
a zero count is promoted to 1, binding the anchor under `this_name`. -/
def optFixup (this : Tree) (tn : Option String) (r : Nat × BMap) : Nat × BMap :=
  if r.1 = 0 then
    (1, match tn with | some n => bmapSet r.2 n [this] | none => r.2)
  else r

/-! ## tregex.py TregexMatcher: the recursive evaluator -/

mutual

/-- One conjunct of `match_and_conditions_cur_node`, dispatched by class:
`AndCondition` via `match_and_condition`, `NotAndCondition` via
`match_not_and_condition`, `OptionalAndCondition` via
`match_optional_and_condition` and `OptionalOrConditions` via
`match_optional_or_conditions`. -/
def evalElem (this : Tree) (tn : Option String) : CondElem → Except String (Nat × BMap)
  | .and1 a => matchAndCondition this tn a
  | .notAnd cs =>
    match matchNotAndLoop this tn cs with
    | .error e => .error e
    | .ok cnt =>
      .ok (cnt, if cnt > 0 then
                  (match tn with | some n => [(n, [this])] | none => [])
                else [])
  | .optAnd cs =>
    match curNodeLoop this tn cs 1 [] (names0 tn) with
    | .error e => .error e
    | .ok r => .ok (optFixup this tn r)
  | .optOr css =>
    match matchOptionalOrLoop this tn css 0 [] with
    | .error e => .error e
    | .ok r => .ok (optFixup this tn r)

/-- The loop of `TregexMatcher.match_not_and_condition`: the contained
conditions were negation-toggled at construction; the first one that matches
makes the whole negated conjunction count 1.  A contained
`OptionalOrConditions` would reach the matcher's unexpected-type branch. -/
def matchNotAndLoop (this : Tree) (tn : Option String) : List CondElem → Except String Nat
  | [] => .ok 0
  | c :: rest =>
    match (match c with
           | .and1 a => matchAndCondition this tn a
           | .notAnd cs => curNodeLoop this tn cs 1 [] (names0 tn)
           | .optAnd cs => curNodeLoop this tn cs 1 [] (names0 tn)
           | .optOr _ => .error "Error!!  Encountered unexpected condition type when matching conjuncting.") with
    | .error e => .error e
    | .ok r => if r.1 > 0 then .ok 1 else matchNotAndLoop this tn rest

/-- The loop of `TregexMatcher.match_optional_or_conditions`: counts are
summed and maps merged with `get(name, []) + nodes` across alternatives. -/
def matchOptionalOrLoop (this : Tree) (tn : Option String) :
    List (List CondElem) → Nat → BMap → Except String (Nat × BMap)
  | [], cnt, m => .ok (cnt, m)
  | cs :: rest, cnt, m =>
    match curNodeLoop this tn cs 1 [] (names0 tn) with
    | .error e => .error e
    | .ok (c1, m1) => matchOptionalOrLoop this tn rest (cnt + c1) (bmapMergeAppend m m1)

/-- The loop of `TregexMatcher.match_and_conditions_cur_node`: name checks,
per-conjunct evaluation, short-circuit to `(0, empty)` on a zero count,
multiplication of counts and overwrite-merge of binding maps. -/
def curNodeLoop (this : Tree) (tn : Option String) :
    List CondElem → Nat → BMap → List String → Except String (Nat × BMap)
  | [], cnt, m, _ => .ok (cnt, m)
  | e :: rest, cnt, m, names =>
    match nameCheck e names with
    | .error s => .error s
    | .ok names1 =>
      match evalElem this tn e with
      | .error s => .error s
      | .ok (c1, m1) =>
        if c1 = 0 then .ok (0, [])
        else curNodeLoop this tn rest (cnt * c1) (bmapOverwrite m m1) names1

end

/-- `TregexMatcher.match_and_conditions_cur_node`. -/
def curNode (this : Tree) (tn : Option String) (conds : List CondElem) :
    Except String (Nat × BMap) :=
  curNodeLoop this tn conds 1 [] (names0 tn)

/-- The standalone count of one conjunct at a node (0 when its evaluation
raises). -/
def elemCount (this : Tree) (tn : Option String) (e : CondElem) : Nat :=
  match evalElem this tn e with
  | .ok r => r.1
  | .error _ => 0

/-- The count `match_and_conditions_cur_node` yields at a node (0 when it
raises). -/
def curNodeCount (this : Tree) (tn : Option String) (conds : List CondElem) : Nat :=
  match curNode this tn conds with
  | .ok r => r.1
  | .error _ => 0

/-- The anchor loop of `TregexMatcher.match_and_conditions`: each anchor is
repeated `match_count` times in the result and the per-anchor maps are
append-merged. -/
def matchAndConditionsGo (tn : Option String) (conds : List CondElem) :
    List Tree → List Tree × BMap → Except String (List Tree × BMap)
  | [], acc => .ok acc
  | t :: rest, (res, m) =>
    match curNode t tn conds with
    | .error e => .error e
    | .ok (c, m1) =>
      matchAndConditionsGo tn conds rest (res ++ List.replicate c t, bmapMergeAppend m m1)

/-- `TregexMatcher.match_and_conditions`. -/
def matchAndConditions (nn : NamedNodesE) (conds : List CondElem) :
    Except String (List Tree × BMap) :=
  matchAndConditionsGo nn.name conds nn.nodes ([], [])

/-- The alternative loop of `TregexMatcher.match_or_conditions`: results are
concatenated and maps append-merged across the alternatives. -/
def matchOrConditionsGo (nn : NamedNodesE) :
    List (List CondElem) → List Tree × BMap → Except String (List Tree × BMap)
  | [], acc => .ok acc
  | cs :: rest, (res, m) =>
    match matchAndConditions nn cs with
    | .error e => .error e
    | .ok (res1, m1) => matchOrConditionsGo nn rest (res ++ res1, bmapMergeAppend m m1)

/-- `TregexMatcher.match_or_conditions`. -/
def matchOrConditions (nn : NamedNodesE) (css : List (List CondElem)) :
    Except String (List Tree × BMap) :=
  matchOrConditionsGo nn css ([], [])

/-- `TregexPattern.get_nodes`: a back-reference to a name that is not in
`backrefs_map` raises `SystemExit`. -/
def getNodes (backrefsMap : BMap) (name : String) : Except String (List Tree) :=
  match backrefsMap.lookup name with
  | none => .error "Error!!  There is no matched node!  Did you specify such a label in the pattern?"
  | some nodes => .ok nodes

/-! ## tregex.py multi-relation compilation -/

/-- Modelled from the spec: `relation.py` is not under `src/`.  Spec section
4.B, indexed relations: "k-th child relations (1-indexed; negative counts
from right)" with "-1 = last"; `Relation.has_ith_child this that k` holds
when `that` is the k-th child of `this`. -/
def hasIthChild (this that : Tree) (i : Int) : Bool :=
  if 0 < i then this.children.get? (i.toNat - 1) == some that
  else if i < 0 then this.children.get? (this.children.length - i.natAbs) == some that
  else false

/-- The `enumerate(named_nodes_list, 1)` loop of the parser action
`p_multi_relation_named_nodes`: the i-th sub-pattern is paired with an
i-th-child `MultiRelationData` (not negated, not optional). -/
def multiChildCondsFrom (i : Nat) : List NamedNodesE → List CondElem
  | [] => []
  | nn :: rest =>
    .and1 ⟨fun a b => hasIthChild a b (Int.ofNat i), false, false, nn⟩
      :: multiChildCondsFrom (i + 1) rest

/-- `p_multi_relation_named_nodes`: the child conditions for sub-patterns
1..n plus one negated (n+1)-th-child condition whose `NamedNodes` is unnamed
and holds every preorder node of the supplied trees (`any_named_nodes`).
After Python's loop the index variable equals n, so the negated condition
uses n+1; the grammar guarantees at least one entry in the brace block. -/
def multiRelationConditions (nns : List NamedNodesE) (allNodes : List Tree) :
    List CondElem :=
  multiChildCondsFrom 1 nns ++
    [.and1 ⟨fun a b => hasIthChild a b (Int.ofNat (nns.length + 1)), true, false,
            ⟨none, allNodes⟩⟩]

mutual

/-- `NotAndCondition.toggle_negated` acting on one contained condition: an
`AndCondition`'s flag is flipped, a nested `NotAndCondition` is toggled
recursively, an `OptionalAndCondition` raises "cannot negate an optional
conjunction", and any other type raises the unexpected-type error. -/
def toggleElemNegated : CondElem → Except String CondElem
  | .and1 a => .ok (.and1 ⟨a.condFunc, !a.isNegated, a.isOptional, a.namedNodes⟩)
  | .notAnd cs =>
    match toggleListNegated cs with
    | .error e => .error e
    | .ok cs1 => .ok (.notAnd cs1)
  | .optAnd _ => .error "Error!!  You cannot negate an optional conjunction."
  | .optOr _ => .error "Error!!  Encountered unexpected condition type when building negated conjunction."

/-- The `for condition in self.conditions` loop of
`NotAndCondition.toggle_negated`. -/
def toggleListNegated : List CondElem → Except String (List CondElem)
  | [] => .ok []
  | c :: rest =>
    match toggleElemNegated c with
    | .error e => .error e
    | .ok c1 =>
      match toggleListNegated rest with
      | .error e => .error e
      | .ok rest1 => .ok (c1 :: rest1)

end

/-- `NotAndCondition.__init__` (parser actions for `! ( ... )` and
`! [ ... ]`): store the conditions and toggle their negation. -/
def mkNotAndCondition (cs : List CondElem) : Except String CondElem :=
  match toggleListNegated cs with
  | .error e => .error e
  | .ok cs1 => .ok (.notAnd cs1)

/-! ## condition.py: the Condition algebra -/

/-- `condition.py` `AbstractCondition` tree.  A `rel` leaf is a `Condition`
object: its `relation_data.searchNodeIterator(t, node_descriptions)` lives in
the external `relation.py`, so the leaf carries the node name of its
`node_descriptions` (used by `And.check_name`) and that external iterator as
a function. -/
inductive PCond where
  | rel : Option String → (Tree → List Tree) → PCond
  | pand : List PCond → PCond
  | por : List PCond → PCond
  | pnot : PCond → PCond
  | popt : PCond → PCond

mutual

/-- `searchNodeIterator` of the condition classes in `condition.py`:
a `Condition` yields its anchor once per relation hit; `And` pipes the
candidate tuple through each conjunct; `Or` chains its alternatives;
`Not` yields the anchor exactly when the inner iterator is empty;
`Opt` yields the inner nodes, or the anchor if there are none. -/
def pSearch : PCond → Tree → List Tree
  | .rel _ f, t => (f t).map (fun _ => t)
  | .pand cs, t => pSearchAnd cs [t]
  | .por cs, t => pSearchOr cs t
  | .pnot c, t => if (pSearch c t).isEmpty then [t] else []
  | .popt c, t =>
    match pSearch c t with
    | [] => [t]
    | l => l

/-- `And.searchNodeIterator`: `candidates = (t,)` then
`candidates = tuple(node for candidate in candidates for node in condition.searchNodeIterator(candidate))`
for each conjunct. -/
def pSearchAnd : List PCond → List Tree → List Tree
  | [], cands => cands
  | c :: cs, cands => pSearchAnd cs (cands.flatMap (fun u => pSearch c u))

/-- `Or.searchNodeIterator`: `yield from condition.searchNodeIterator(t)`
for each alternative. -/
def pSearchOr : List PCond → Tree → List Tree
  | [], _ => []
  | c :: cs, t => pSearch c t ++ pSearchOr cs t

end

/-- `AbstractCondition.satisfies`: true iff `next(searchNodeIterator(t))`
does not raise `StopIteration`. -/
def pSatisfies (c : PCond) (t : Tree) : Bool :=
  !(pSearch c t).isEmpty

mutual

/-- The `names` attribute an `And`/`Or` object accumulates: every name
reachable through `check_name` / `store_name` (which unwrap `Not`/`Opt`,
read `Condition.node_descriptions.name` and union nested `And`/`Or` name
sets). -/
def pNamesOf : PCond → List String
  | .rel n? _ => match n? with | some n => [n] | none => []
  | .pand cs => pNamesOfList cs
  | .por cs => pNamesOfList cs
  | .pnot c => pNamesOf c
  | .popt c => pNamesOf c

/-- Name collection over a condition list. -/
def pNamesOfList : List PCond → List String
  | [] => []
  | c :: cs => pNamesOf c ++ pNamesOfList cs

end

/-- `And.check_name` for a single condition against the names already
declared: unwrap `Not`/`Opt`; a `Condition` whose descriptions carry a name
raises on a duplicate, otherwise records the name; a nested `And`/`Or`
raises when its name set meets the present one, otherwise is unioned in. -/
def checkNameOne : PCond → List String → Except String (List String)
  | .pnot c, names => checkNameOne c names
  | .popt c, names => checkNameOne c names
  | .rel n? _, names =>
    match n? with
    | none => .ok names
    | some n =>
      if n ∈ names then
        .error "Variable was declared twice in the scope of the same conjunction."
      else .ok (names ++ [n])
  | .pand cs, names =>
    if (pNamesOfList cs).any (fun n => n ∈ names) then
      .error "Variable was declared twice in the scope of the same conjunction."
    else .ok (names ++ pNamesOfList cs)
  | .por cs, names =>
    if (pNamesOfList cs).any (fun n => n ∈ names) then
      .error "Variable was declared twice in the scope of the same conjunction."
    else .ok (names ++ pNamesOfList cs)

/-- The `for cond in conds: self.check_name(cond)` loop of `And.__init__`. -/
def checkNameFold : List PCond → List String → Except String (List String)
  | [], names => .ok names
  | c :: cs, names =>
    match checkNameOne c names with
    | .error e => .error e
    | .ok names1 => checkNameFold cs names1

/-- `And.__init__`: builds the conjunction, raising `ParseException` when
`check_name` finds a duplicate declaration. -/
def mkAnd (cs : List PCond) : Except String PCond :=
  match checkNameFold cs [] with
  | .error e => .error e
  | .ok _ => .ok (.pand cs)

/-! ## condition.py: NodeDescriptions -/

/-- The `op` field of a `condition.py` `NodeDescription`. -/
inductive NodeOp where
  | id
  | regex
  | blank
  | root

/-- `condition.py` `NodeDescription`: an `(op, value)` pair. -/
structure NodeDesc where
  op : NodeOp
  value : String

/-- The `desc.op.satisfies(t, desc.value, ...)` dispatch.  `rs` is the
`re.search` oracle, `pn` the parent-is-None capability of the external
`tree.py`. -/
def descSatisfies (rs : String → String → Bool) (pn : Tree → Bool) (d : NodeDesc)
    (t : Tree) (under_negation use_basic_cat : Bool) : Except String Bool :=
  match d.op with
  | .id => .ok (NODE_ID_satisfies t d.value under_negation use_basic_cat)
  | .regex => NODE_REGEX_satisfies rs t d.value under_negation use_basic_cat
  | .blank => .ok (matchBlank under_negation)
  | .root => .ok (NODE_ROOT_satisfies pn t under_negation)

/-- Python's `any` over a generator whose element evaluation may raise:
stop at the first true element, propagate the first exception reached. -/
def anyE (f : α → Except String Bool) : List α → Except String Bool
  | [] => .ok false
  | a :: rest =>
    match f a with
    | .error e => .error e
    | .ok b => if b then .ok true else anyE f rest

/-- Python's `filter` fully consumed into a list, propagating exceptions
raised by the predicate. -/
def filterE (p : α → Except String Bool) : List α → Except String (List α)
  | [] => .ok []
  | a :: rest =>
    match p a with
    | .error e => .error e
    | .ok b =>
      match filterE p rest with
      | .error e => .error e
      | .ok l => .ok (if b then a :: l else l)

/-- `condition.py` `NodeDescriptions`: a disjunction of descriptions with the
`under_negation` / `use_basic_cat` flags, an optional conjoined `And`
condition (conjunct list plus its accumulated `names`) and an optional
name. -/
structure NodeDescs where
  descriptions : List NodeDesc
  under_negation : Bool
  use_basic_cat : Bool
  condition : Option (List PCond × List String)
  name : Option String

/-- `NodeDescriptions._satisfies_ignore_condition`:
`any(desc.op.satisfies(t, ...) for desc in self.descriptions)`. -/
def ndIgnoreCond (rs : String → String → Bool) (pn : Tree → Bool) (d : NodeDescs)
    (t : Tree) : Except String Bool :=
  anyE (fun desc => descSatisfies rs pn desc t d.under_negation d.use_basic_cat)
    d.descriptions

/-- `NodeDescriptions.satisfies`: with no condition, any description matches;
with a condition, any description matches and `self.condition.satisfies(t)`
holds (the latter evaluated after each true description). -/
def ndSatisfies (rs : String → String → Bool) (pn : Tree → Bool) (d : NodeDescs)
    (t : Tree) : Except String Bool :=
  match d.condition with
  | none => ndIgnoreCond rs pn d t
  | some (conds, _) =>
    anyE (fun desc =>
      match descSatisfies rs pn desc t d.under_negation d.use_basic_cat with
      | .error e => .error e
      | .ok b => .ok (b && !(pSearchAnd conds [t]).isEmpty))
      d.descriptions

/-- The state of the `BackRef` holder wired to a `NodeDescriptions`:
`none` when no holder is wired, `some s` when a holder with node list state
`s` is (where `s = none` is Python's `backref.nodes is None`). -/
abbrev BackRefState := Option (Option (List Tree))

/-- The backref epilogue of `NodeDescriptions.searchNodeIterator`:
`ret = list(ret)`, then extend the holder's node list, initializing it when
it is `None`. -/
def backrefUpdate (s : BackRefState) (ret : List Tree) : BackRefState :=
  match s with
  | none => none
  | some old => some (some ((old.getD []) ++ ret))

/-- `condition.py` `NodeDescriptions.searchNodeIterator`: the candidate
stream is the preorder of `t` (or `t` alone when `recursive` is false)
filtered by `_satisfies_ignore_condition`; with a condition, a duplicate of
the group's own name inside the condition raises `ParseException` and each
candidate is expanded through the condition's iterator; finally the backref
holder accumulates the returned nodes. -/
def ndSearch (rs : String → String → Bool) (pn : Tree → Bool) (d : NodeDescs)
    (t : Tree) (recursive : Bool) (s : BackRefState) :
    Except String (List Tree × BackRefState) :=
  match d.condition with
  | none =>
    match filterE (fun node => ndIgnoreCond rs pn d node)
        (if recursive then t.preorder else [t]) with
    | .error e => .error e
    | .ok ret => .ok (ret, backrefUpdate s ret)
  | some (conds, condNames) =>
    if (match d.name with | some n => decide (n ∈ condNames) | none => false) then
      .error "Variable was declared twice in the scope of the same conjunction."
    else
      match filterE (fun node => ndIgnoreCond rs pn d node)
          (if recursive then t.preorder else [t]) with
      | .error e => .error e
      | .ok filtered =>
        let ret := filtered.flatMap (fun node => pSearchAnd conds [node])
        .ok (ret, backrefUpdate s ret)

/-! ## Helper lemmas -/

/-- The early-return loop of `_match_and_condition_not` computes the same
answer as a single `any` over the candidates. -/
theorem matchNotGo_eq (this : Tree) (f : Tree → Tree → Bool) (l : List Tree) :
    matchNotGo this f l = if l.any (fun x => f this x) then (0, ([] : BMap)) else (1, []) := by
  induction l with
  | nil => simp [matchNotGo]
  | cons x rest ih =>
    simp only [matchNotGo, List.any_cons]
    by_cases h : f this x = true
    · simp [h]
    · simp only [Bool.not_eq_true] at h
      simp [h, ih]

/-- The accumulation loop of `_match_and_condition_optional` computes
`filter`. -/
theorem matchOptGo_eq (this : Tree) (f : Tree → Tree → Bool) (l acc : List Tree) :
    matchOptGo this f l acc = acc ++ l.filter (fun x => f this x) := by
  induction l generalizing acc with
  | nil => simp [matchOptGo]
  | cons x rest ih =>
    simp only [matchOptGo, List.filter_cons]
    by_cases h : f this x = true
    · simp [h, ih]
    · simp only [Bool.not_eq_true] at h
      simp [h, ih]

/-- The counting loop of `_match_and_condition` counts the satisfying
candidates, whatever the binding maps do. -/
theorem matchPlainGo_fst (this : Tree) (tn thatn : Option String)
    (f : Tree → Tree → Bool) (l : List Tree) (c : Nat) (m : BMap) :
    (matchPlainGo this tn thatn f l (c, m)).1 = c + (l.filter (fun x => f this x)).length := by
  induction l generalizing c m with
  | nil => simp [matchPlainGo]
  | cons x rest ih =>
    simp only [matchPlainGo, List.filter_cons]
    by_cases h : f this x = true
    · simp only [h, if_true, ih, List.length_cons]
      omega
    · simp only [Bool.not_eq_true] at h
      simp [h, ih]

/-- With no names anywhere, the `_match_and_condition` loop leaves its map
untouched. -/
theorem matchPlainGo_unnamed (this : Tree) (f : Tree → Tree → Bool)
    (l : List Tree) (c : Nat) (m : BMap) :
    matchPlainGo this none none f l (c, m) =
      (c + (l.filter (fun x => f this x)).length, m) := by
  induction l generalizing c m with
  | nil => simp [matchPlainGo]
  | cons x rest ih =>
    simp only [matchPlainGo, List.filter_cons]
    by_cases h : f this x = true
    · simp only [h, if_true, ih, List.length_cons]
      exact congrArg (fun k => (k, m)) (by omega)
    · simp only [Bool.not_eq_true] at h
      simp [h, ih]

/-- When the `match_and_conditions_cur_node` loop returns without raising,
its count is the running count times the product of the standalone counts of
the remaining conjuncts. -/
theorem curNodeLoop_count (this : Tree) (tn : Option String) :
    ∀ (conds : List CondElem) (cnt : Nat) (m : BMap) (names : List String)
      (c : Nat) (m' : BMap),
      curNodeLoop this tn conds cnt m names = .ok (c, m') →
      c = cnt * (conds.map (elemCount this tn)).prod := by
  intro conds
  induction conds with
  | nil =>
    intro cnt m names c m' h
    simp only [curNodeLoop, Except.ok.injEq, Prod.mk.injEq] at h
    simp [← h.1]
  | cons e rest ih =>
    intro cnt m names c m' h
    simp only [curNodeLoop] at h
    cases hnc : nameCheck e names with
    | error s => simp only [hnc] at h; exact absurd h (by simp)
    | ok names1 =>
      simp only [hnc] at h
      cases hev : evalElem this tn e with
      | error s => simp only [hev] at h; exact absurd h (by simp)
      | ok p =>
        obtain ⟨c1, m1⟩ := p
        simp only [hev] at h
        have hec : elemCount this tn e = c1 := by simp [elemCount, hev]
        by_cases hz : c1 = 0
        · rw [if_pos hz] at h
          simp only [Except.ok.injEq, Prod.mk.injEq] at h
          simp [← h.1, hec, hz]
        · rw [if_neg hz] at h
          have hrest := ih (cnt * c1) (bmapOverwrite m m1) names1 c m' h
          simp only [List.map_cons, List.prod_cons, hec]
          rw [hrest]
          ring

/-- When some conjunct has standalone count 0 and the loop returns without
raising, it returns count 0 with an empty binding map. -/
theorem curNodeLoop_zero (this : Tree) (tn : Option String) :
    ∀ (conds : List CondElem) (cnt : Nat) (m : BMap) (names : List String)
      (c : Nat) (m' : BMap),
      (∃ e ∈ conds, elemCount this tn e = 0) →
      curNodeLoop this tn conds cnt m names = .ok (c, m') →
      c = 0 ∧ m' = [] := by
  intro conds
  induction conds with
  | nil =>
    intro cnt m names c m' hex h
    obtain ⟨e, he, _⟩ := hex
    exact absurd he (by simp)
  | cons e rest ih =>
    intro cnt m names c m' hex h
    simp only [curNodeLoop] at h
    cases hnc : nameCheck e names with
    | error s => simp only [hnc] at h; exact absurd h (by simp)
    | ok names1 =>
      simp only [hnc] at h
      cases hev : evalElem this tn e with
      | error s => simp only [hev] at h; exact absurd h (by simp)
      | ok p =>
        obtain ⟨c1, m1⟩ := p
        simp only [hev] at h
        by_cases hz : c1 = 0
        · rw [if_pos hz] at h
          simp only [Except.ok.injEq, Prod.mk.injEq] at h
          exact ⟨h.1.symm, h.2.symm⟩
        · rw [if_neg hz] at h
          have hec : elemCount this tn e = c1 := by simp [elemCount, hev]
          obtain ⟨e', he', hz'⟩ := hex
          rcases List.mem_cons.mp he' with rfl | hmem
          · rw [hec] at hz'; exact absurd hz' hz
          · exact ih (cnt * c1) (bmapOverwrite m m1) names1 c m' ⟨e', hmem, hz'⟩ h

/-- `match_and_conditions` over a single anchor node yields that anchor
repeated `match_and_conditions_cur_node`'s count times. -/
theorem matchAndConditions_single (t : Tree) (nm : Option String)
    (cs : List CondElem) (res : List Tree) (m : BMap)
    (h : matchAndConditions ⟨nm, [t]⟩ cs = .ok (res, m)) :
    res.length = curNodeCount t nm cs := by
  simp only [matchAndConditions, matchAndConditionsGo] at h
  cases hc : curNode t nm cs with
  | error s => simp only [hc] at h; exact absurd h (by simp)
  | ok p =>
    obtain ⟨c, m1⟩ := p
    simp only [hc, matchAndConditionsGo, Except.ok.injEq, Prod.mk.injEq] at h
    rw [← h.1]
    simp [curNodeCount, hc]

/-- The `match_or_conditions` loop over a single anchor accumulates, per
alternative, `cur_node`'s count many copies of the anchor. -/
theorem matchOrConditionsGo_length (t : Tree) (nm : Option String) :
    ∀ (css : List (List CondElem)) (res0 : List Tree) (m0 : BMap)
      (res : List Tree) (m : BMap),
      matchOrConditionsGo ⟨nm, [t]⟩ css (res0, m0) = .ok (res, m) →
      res.length = res0.length + (css.map (fun cs => curNodeCount t nm cs)).sum := by
  intro css
  induction css with
  | nil =>
    intro res0 m0 res m h
    simp only [matchOrConditionsGo, Except.ok.injEq, Prod.mk.injEq] at h
    simp [← h.1]
  | cons cs rest ih =>
    intro res0 m0 res m h
    simp only [matchOrConditionsGo] at h
    cases hma : matchAndConditions ⟨nm, [t]⟩ cs with
    | error s => simp only [hma] at h; exact absurd h (by simp)
    | ok p =>
      obtain ⟨res1, m1⟩ := p
      simp only [hma] at h
      have hlen := matchAndConditions_single t nm cs res1 m1 hma
      have hr := ih (res0 ++ res1) (bmapMergeAppend m0 m1) res m h
      rw [hr]
      simp only [List.length_append, hlen, List.map_cons, List.sum_cons]
      omega

/-- The standalone count of a plain (neither negated nor optional) relation
conjunct is the number of satisfying candidates. -/
theorem elemCount_plain (this : Tree) (tn : Option String) (f : Tree → Tree → Bool)
    (nn : NamedNodesE) :
    elemCount this tn (.and1 ⟨f, false, false, nn⟩) =
      (nn.nodes.filter (fun x => f this x)).length := by
  simp only [elemCount, evalElem, matchAndCondition]
  simp only [Bool.and_self, Bool.not_false, Bool.and_self, if_false, if_true,
    Bool.false_eq_true, matchAndConditionPlain]
  rw [matchPlainGo_fst]
  omega

/-- The standalone count of a negated relation conjunct is 1 exactly when no
candidate satisfies it. -/
theorem elemCount_negated (this : Tree) (tn : Option String) (f : Tree → Tree → Bool)
    (nn : NamedNodesE) :
    elemCount this tn (.and1 ⟨f, true, false, nn⟩) =
      (if nn.nodes.any (fun x => f this x) then 0 else 1) := by
  simp only [elemCount, evalElem, matchAndCondition]
  simp only [Bool.and_false, Bool.not_true, Bool.false_and, if_false, if_true,
    Bool.false_eq_true, matchNotGo_eq]
  by_cases h : (nn.nodes.any (fun x => f this x)) = true
  · rw [if_pos h, if_pos h]
  · rw [if_neg h, if_neg h]

/-- Positivity of the count of one i-th-child condition of a multi-relation
block: some candidate of the sub-pattern is the (k+1)-th child (1-indexed),
i.e. the child at 0-based index k. -/
theorem ithChildCount_pos (this : Tree) (tn : Option String) (nn : NamedNodesE) (k : Nat) :
    (elemCount this tn
        (.and1 ⟨fun a b => hasIthChild a b (Int.ofNat (k + 1)), false, false, nn⟩) ≠ 0)
    ↔ ∃ ch, this.children.get? k = some ch ∧ ch ∈ nn.nodes := by
  rw [elemCount_plain]
  constructor
  · intro h
    have hne : nn.nodes.filter (fun x => hasIthChild this x (Int.ofNat (k + 1))) ≠ [] := by
      intro hc
      rw [hc] at h
      exact h rfl
    obtain ⟨x, hx⟩ := List.exists_mem_of_ne_nil _ hne
    have hmem := List.mem_filter.mp hx
    have hh : hasIthChild this x (Int.ofNat (k + 1)) = true := by simpa using hmem.2
    simp only [hasIthChild] at hh
    rw [if_pos (show (0:Int) < Int.ofNat (k + 1) by exact Int.ofNat_pos.mpr (Nat.succ_pos k))] at hh
    have hg : this.children.get? ((Int.ofNat (k + 1)).toNat - 1) = some x := by
      simpa using hh
    refine ⟨x, ?_, hmem.1⟩
    simpa using hg
  · intro ⟨ch, hch, hmem⟩
    intro hcon
    have hin : ch ∈ nn.nodes.filter (fun x => hasIthChild this x (Int.ofNat (k + 1))) := by
      rw [List.mem_filter]
      refine ⟨hmem, ?_⟩
      simp only [hasIthChild]
      rw [if_pos (show (0:Int) < Int.ofNat (k + 1) by exact Int.ofNat_pos.mpr (Nat.succ_pos k))]
      simpa using hch
    have hne := List.ne_nil_of_mem hin
    rw [List.length_eq_zero] at hcon
    exact hne hcon

/-- Zero-freedom of the i-th-child condition counts of a multi-relation
block, for sub-patterns numbered from k+1: every sub-pattern has a candidate
sitting at the corresponding child slot. -/
theorem multiChildConds_no_zero (this : Tree) (tn : Option String) :
    ∀ (nns : List NamedNodesE) (k : Nat),
      (0 ∉ (multiChildCondsFrom (k + 1) nns).map (elemCount this tn))
      ↔ (∀ j, j < nns.length →
          ∃ ch nn, this.children.get? (k + j) = some ch ∧ nns.get? j = some nn ∧
            ch ∈ nn.nodes) := by
  intro nns
  induction nns with
  | nil => intro k; simp [multiChildCondsFrom]
  | cons nn rest ih =>
    intro k
    simp only [multiChildCondsFrom, List.map_cons, List.mem_cons, not_or]
    constructor
    · intro ⟨h0, hrest⟩ j hj
      match j with
      | 0 =>
        have := (ithChildCount_pos this tn nn k).mp (fun he => h0 he.symm)
        obtain ⟨ch, hch, hmem⟩ := this
        exact ⟨ch, nn, by simpa using hch, rfl, hmem⟩
      | j' + 1 =>
        have hj' : j' < rest.length := by simpa using hj
        have := ((ih (k + 1)).mp hrest) j' hj'
        obtain ⟨ch, nn', h1, h2, h3⟩ := this
        refine ⟨ch, nn', ?_, by simpa using h2, h3⟩
        have : k + 1 + j' = k + (j' + 1) := by omega
        rw [← this]
        exact h1
    · intro hall
      constructor
      · have := hall 0 (by simp)
        obtain ⟨ch, nn', h1, h2, h3⟩ := this
        intro he
        have h2' : nn' = nn := by
          have := h2
          simp only [List.get?_cons_zero, Option.some.injEq] at this
          exact this.symm
        have hp := (ithChildCount_pos this tn nn' k).mpr ⟨ch, by simpa using h1, h3⟩
        rw [h2'] at hp
        exact hp he.symm
      · rw [ih (k + 1)]
        intro j hj
        have := hall (j + 1) (by simpa using Nat.succ_lt_succ hj)
        obtain ⟨ch, nn', h1, h2, h3⟩ := this
        refine ⟨ch, nn', ?_, by simpa using h2, h3⟩
        have : k + (j + 1) = k + 1 + j := by omega
        rw [← this]
        exact h1

/-! ## Claims -/

/-- Claim C1: at every node where a compiled condition is evaluated, the
count of a conjunction is the product of its conjuncts' standalone counts
(collapsing to 0 with an empty binding map as soon as any conjunct counts
0), the count of a disjunction is the sum of its alternatives' counts, a
negated condition counts 1 exactly when the inner condition counts 0 (else
0), and an optional condition counts `max 1` of the inner count. -/
theorem claim_C1_multiplicities (this t u : Tree) (tn nm : Option String)
    (conds : List CondElem) (css : List (List CondElem)) (c : Nat) (m : BMap)
    (res : List Tree) (m2 : BMap) (pc : PCond)
    (h1 : curNode this tn conds = .ok (c, m))
    (h2 : matchOrConditions ⟨nm, [t]⟩ css = .ok (res, m2)) :
    c = (conds.map (elemCount this tn)).prod
    ∧ ((∃ e ∈ conds, elemCount this tn e = 0) → c = 0 ∧ m = [])
    ∧ res.length = (css.map (fun cs => curNodeCount t nm cs)).sum
    ∧ (pSearch (.pnot pc) u).length = (if (pSearch pc u).length = 0 then 1 else 0)
    ∧ (pSearch (.popt pc) u).length = max 1 (pSearch pc u).length := by
  refine ⟨?_, ?_, ?_, ?_, ?_⟩
  · have := curNodeLoop_count this tn conds 1 [] (names0 tn) c m h1
    simpa using this
  · intro hex
    exact curNodeLoop_zero this tn conds 1 [] (names0 tn) c m hex h1
  · have := matchOrConditionsGo_length t nm css [] [] res m2 h2
    simpa using this
  · simp only [pSearch]
    cases hp : pSearch pc u with
    | nil => simp
    | cons x xs => simp
  · simp only [pSearch]
    cases hp : pSearch pc u with
    | nil => simp
    | cons x xs =>
      have : 1 ≤ (x :: xs).length := by simp
      simp [Nat.max_eq_right this]

/-- Claim C1 witness: a two-conjunct conjunction whose second conjunct counts
0 collapses to `(0, empty)`; a two-alternative disjunction at one anchor sums
counts 1 + 1; `Not` and `Opt` of an empty inner iterator count 1. -/
theorem claim_C1_multiplicities_witness :
    (0 : Nat) =
      (([CondElem.and1 ⟨fun _ _ => true, false, false,
            ⟨none, [Tree.node (some "W") []]⟩⟩,
         CondElem.and1 ⟨fun _ _ => false, false, false,
            ⟨none, [Tree.node (some "W") []]⟩⟩]).map
        (elemCount (Tree.node (some "W") []) none)).prod
    ∧ ((0 : Nat) = 0 ∧ ([] : BMap) = [])
    ∧ ([Tree.node (some "W") [], Tree.node (some "W") []].length : Nat) =
      (([[CondElem.and1 ⟨fun _ _ => true, false, false,
            ⟨none, [Tree.node (some "W") []]⟩⟩], []] :
          List (List CondElem)).map
        (fun cs => curNodeCount (Tree.node (some "W") []) none cs)).sum
    ∧ (pSearch (.pnot (.rel none (fun _ => []))) (Tree.node (some "W") [])).length =
        (if (pSearch (.rel none (fun _ => [])) (Tree.node (some "W") [])).length = 0
         then 1 else 0)
    ∧ (pSearch (.popt (.rel none (fun _ => []))) (Tree.node (some "W") [])).length =
        max 1 (pSearch (.rel none (fun _ => [])) (Tree.node (some "W") [])).length := by
  have h := claim_C1_multiplicities (Tree.node (some "W") []) (Tree.node (some "W") [])
    (Tree.node (some "W") []) none none
    [CondElem.and1 ⟨fun _ _ => true, false, false, ⟨none, [Tree.node (some "W") []]⟩⟩,
     CondElem.and1 ⟨fun _ _ => false, false, false, ⟨none, [Tree.node (some "W") []]⟩⟩]
    [[CondElem.and1 ⟨fun _ _ => true, false, false, ⟨none, [Tree.node (some "W") []]⟩⟩], []]
    0 [] [Tree.node (some "W") [], Tree.node (some "W") []] [] (.rel none (fun _ => []))
    rfl rfl
  refine ⟨h.1, h.2.1 ?_, h.2.2.1, h.2.2.2.1, h.2.2.2.2⟩
  exact ⟨CondElem.and1 ⟨fun _ _ => false, false, false,
    ⟨none, [Tree.node (some "W") []]⟩⟩, by simp, rfl⟩

/-- Claim C4: a multi-relation block with n sub-patterns compiles into n
i-th-child conditions (the i-th sub-pattern against child index i,
1-indexed) plus one negated (n+1)-th-child condition ranging over all nodes,
and an anchor matches the resulting conjunction exactly when it has
precisely n children and its i-th child is one of the i-th sub-pattern's
matched nodes, for every i. -/
theorem claim_C4_multi_relation_block (this : Tree) (tn : Option String)
    (nns : List NamedNodesE) (allNodes : List Tree) (c : Nat) (m : BMap)
    (hne : nns ≠ [])
    (hsub : ∀ ch ∈ this.children, ch ∈ allNodes)
    (h : curNode this tn (multiRelationConditions nns allNodes) = .ok (c, m)) :
    0 < c ↔
      (this.children.length = nns.length ∧
        ∀ i, i < nns.length →
          ∃ ch nn, this.children.get? i = some ch ∧ nns.get? i = some nn ∧
            ch ∈ nn.nodes) := by
  have hc : c = ((multiRelationConditions nns allNodes).map (elemCount this tn)).prod := by
    have := curNodeLoop_count this tn _ 1 [] (names0 tn) c m h
    simpa using this
  have hmap : (multiRelationConditions nns allNodes).map (elemCount this tn) =
      (multiChildCondsFrom 1 nns).map (elemCount this tn) ++
      [elemCount this tn
        (.and1 ⟨fun a b => hasIthChild a b (Int.ofNat (nns.length + 1)), true, false,
                ⟨none, allNodes⟩⟩)] := by
    simp [multiRelationConditions]
  have hpos : 0 < c ↔
      (0 ∉ (multiChildCondsFrom 1 nns).map (elemCount this tn)) ∧
      elemCount this tn
        (.and1 ⟨fun a b => hasIthChild a b (Int.ofNat (nns.length + 1)), true, false,
                ⟨none, allNodes⟩⟩) ≠ 0 := by
    rw [hc, hmap, Nat.pos_iff_ne_zero, ne_eq, List.prod_eq_zero_iff]
    simp only [List.mem_append, List.mem_singleton, not_or]
    constructor
    · intro ⟨h1, h2⟩
      exact ⟨h1, fun he => h2 he.symm⟩
    · intro ⟨h1, h2⟩
      exact ⟨h1, fun he => h2 he.symm⟩
  have hA : (0 ∉ (multiChildCondsFrom 1 nns).map (elemCount this tn)) ↔
      (∀ j, j < nns.length →
        ∃ ch nn, this.children.get? j = some ch ∧ nns.get? j = some nn ∧
          ch ∈ nn.nodes) := by
    have := multiChildConds_no_zero this tn nns 0
    simpa using this
  have hB : (elemCount this tn
      (.and1 ⟨fun a b => hasIthChild a b (Int.ofNat (nns.length + 1)), true, false,
              ⟨none, allNodes⟩⟩) ≠ 0) ↔ this.children.length ≤ nns.length := by
    rw [elemCount_negated]
    constructor
    · intro hno
      by_contra hlt
      push_neg at hlt
      have hg : this.children.get? nns.length = some (this.children.get ⟨nns.length, hlt⟩) :=
        List.get?_eq_get hlt
      have hmem : this.children.get ⟨nns.length, hlt⟩ ∈ this.children := List.get_mem _ _ _
      have hany : allNodes.any
          (fun x => hasIthChild this x (Int.ofNat (nns.length + 1))) = true := by
        rw [List.any_eq_true]
        refine ⟨this.children.get ⟨nns.length, hlt⟩, hsub _ hmem, ?_⟩
        simp only [hasIthChild]
        rw [if_pos (show (0:Int) < Int.ofNat (nns.length + 1) by
          exact Int.ofNat_pos.mpr (Nat.succ_pos _))]
        have : (Int.ofNat (nns.length + 1)).toNat - 1 = nns.length := by simp
        rw [this, hg]
        simp
      rw [if_pos hany] at hno
      exact hno rfl
    · intro hle
      have hnone : this.children.get? nns.length = none := List.get?_eq_none.mpr hle
      have hany : allNodes.any
          (fun x => hasIthChild this x (Int.ofNat (nns.length + 1))) = false := by
        rw [List.any_eq_false]
        intro x hx
        simp only [hasIthChild]
        rw [if_pos (show (0:Int) < Int.ofNat (nns.length + 1) by
          exact Int.ofNat_pos.mpr (Nat.succ_pos _))]
        have : (Int.ofNat (nns.length + 1)).toNat - 1 = nns.length := by simp
        rw [this, hnone]
        simp
      rw [hany]
      simp
  rw [hpos, hA, hB]
  constructor
  · intro ⟨hall, hle⟩
    have hge : nns.length ≤ this.children.length := by
      have hlen : 0 < nns.length := List.length_pos.mpr hne
      obtain ⟨ch, nn, hch, _, _⟩ := hall (nns.length - 1) (by omega)
      have hlt2 : nns.length - 1 < this.children.length := by
        by_contra hcon
        push_neg at hcon
        rw [List.get?_eq_none.mpr hcon] at hch
        exact absurd hch (by simp)
      omega
    exact ⟨Nat.le_antisymm hle hge, hall⟩
  · intro ⟨heq, hall⟩
    exact ⟨hall, le_of_eq heq⟩

/-- Claim C4 witness: the block `(NP ; VP)` compiled against an anchor with
children NP and VP matches, and the characterization agrees. -/
theorem claim_C4_multi_relation_block_witness :
    0 < 1 ↔
      ((Tree.node (some "S") [Tree.node (some "NP") [], Tree.node (some "VP") []]).children.length =
        ([⟨none, [Tree.node (some "NP") []]⟩, ⟨none, [Tree.node (some "VP") []]⟩] :
          List NamedNodesE).length ∧
        ∀ i, i < ([⟨none, [Tree.node (some "NP") []]⟩, ⟨none, [Tree.node (some "VP") []]⟩] :
            List NamedNodesE).length →
          ∃ ch nn,
            (Tree.node (some "S") [Tree.node (some "NP") [], Tree.node (some "VP") []]).children.get? i =
              some ch ∧
            ([⟨none, [Tree.node (some "NP") []]⟩, ⟨none, [Tree.node (some "VP") []]⟩] :
              List NamedNodesE).get? i = some nn ∧
            ch ∈ nn.nodes) := by
  exact claim_C4_multi_relation_block
    (Tree.node (some "S") [Tree.node (some "NP") [], Tree.node (some "VP") []]) none
    [⟨none, [Tree.node (some "NP") []]⟩, ⟨none, [Tree.node (some "VP") []]⟩]
    [Tree.node (some "S") [Tree.node (some "NP") [], Tree.node (some "VP") []],
     Tree.node (some "NP") [], Tree.node (some "VP") []]
    1 [] (by simp) (by decide) rfl

/-- Claim C2: for every anchor node and every relation whose negated flag is
set (and optional flag clear), evaluation returns multiplicity 1 with an
empty binding map exactly when no candidate satisfies the relation predicate
against the anchor, and multiplicity 0 with an empty binding map otherwise;
no bindings ever escape a negated relation. -/
theorem claim_C2_negated_relation (this : Tree) (tn : Option String) (a : AndCond)
    (hneg : a.isNegated = true) (hopt : a.isOptional = false) :
    matchAndCondition this tn a =
      .ok ((if a.namedNodes.nodes.any (fun x => a.condFunc this x) then 0 else 1), ([] : BMap))
    ∧ (matchAndCondition this tn a = .ok (1, ([] : BMap)) ↔
        ∀ x ∈ a.namedNodes.nodes, a.condFunc this x = false) := by
  have hdisp : matchAndCondition this tn a = .ok (matchNotGo this a.condFunc a.namedNodes.nodes) := by
    simp [matchAndCondition, hneg, hopt]
  rw [hdisp, matchNotGo_eq]
  by_cases h : (a.namedNodes.nodes.any (fun x => a.condFunc this x)) = true
  · refine ⟨by rw [if_pos h, if_pos h], ?_⟩
    rw [if_pos h]
    constructor
    · intro hc
      exact absurd hc (by simp)
    · intro hall
      rw [List.any_eq_true] at h
      obtain ⟨x, hx, hfx⟩ := h
      rw [hall x hx] at hfx
      exact absurd hfx (by simp)
  · refine ⟨by rw [if_neg h, if_neg h], ?_⟩
    rw [if_neg h]
    simp only [true_iff]
    rw [Bool.not_eq_true, List.any_eq_false] at h
    intro x hx
    have := h x hx
    simpa using this

/-- Claim C2 witness: a concrete negated relation with one non-satisfying
candidate yields count 1 and an empty map. -/
theorem claim_C2_negated_relation_witness :
    matchAndCondition (Tree.node (some "A") []) none
        ⟨fun _ _ => false, true, false, ⟨some "x", [Tree.node (some "B") []]⟩⟩ =
      .ok (1, ([] : BMap)) := by
  have h := claim_C2_negated_relation (Tree.node (some "A") []) none
    ⟨fun _ _ => false, true, false, ⟨some "x", [Tree.node (some "B") []]⟩⟩ rfl rfl
  simpa using h.1

/-- Claim C3: for every anchor node and every relation marked optional (and
not negated), evaluation returns multiplicity exactly 1, and the binding map
records under the sub-pattern's name (when it has one) every candidate node
that satisfies the relation at the anchor, possibly an empty list. -/
theorem claim_C3_optional_relation (this : Tree) (tn : Option String) (a : AndCond)
    (hneg : a.isNegated = false) (hopt : a.isOptional = true) :
    matchAndCondition this tn a =
      .ok (1, match a.namedNodes.name with
              | none => ([] : BMap)
              | some n => [(n, a.namedNodes.nodes.filter (fun x => a.condFunc this x))]) := by
  have hdisp : matchAndCondition this tn a =
      .ok (matchAndConditionOptional this a.namedNodes a.condFunc) := by
    simp [matchAndCondition, hneg, hopt]
  rw [hdisp]
  unfold matchAndConditionOptional
  match hn : a.namedNodes.name with
  | none => rfl
  | some n => rw [matchOptGo_eq]; simp

/-- Claim C3 witness: a concrete optional relation binds exactly the
satisfying candidates and yields count 1. -/
theorem claim_C3_optional_relation_witness :
    matchAndCondition (Tree.node (some "A") []) none
        ⟨fun _ x => x.lab == some "B", false, true,
         ⟨some "foo", [Tree.node (some "B") [], Tree.node (some "C") []]⟩⟩ =
      .ok (1, [("foo", [Tree.node (some "B") []])]) := by
  have h := claim_C3_optional_relation (Tree.node (some "A") []) none
    ⟨fun _ x => x.lab == some "B", false, true,
     ⟨some "foo", [Tree.node (some "B") [], Tree.node (some "C") []]⟩⟩ rfl rfl
  simpa using h

/-- Claim C5 counterexample: the naming-restriction errors of `tregex.py`
live inside the per-anchor matching loop, so a pattern that names a node
under a negation operator (here the compiled form of `A ![ < B=b ]`,
built by the real `NotAndCondition` constructor toggling its conjunct)
compiles and evaluates without any error when no anchor node matches,
returning the empty result instead of failing. -/
theorem claim_C5_counterexample :
    mkNotAndCondition [.and1 ⟨fun _ _ => true, false, false, ⟨some "b", ([] : List Tree)⟩⟩] =
      .ok (.notAnd [.and1 ⟨fun _ _ => true, true, false, ⟨some "b", ([] : List Tree)⟩⟩])
    ∧ matchAndConditions ⟨none, ([] : List Tree)⟩
        [.notAnd [.and1 ⟨fun _ _ => true, true, false, ⟨some "b", ([] : List Tree)⟩⟩]] =
      .ok ([], []) :=
  ⟨rfl, rfl⟩

/-- Claim C5 as amended: duplicate names in one conjunction are rejected when
`condition.py` builds the `And` object; in `tregex.py`, a conjunction whose
evaluation reaches a named node under a negation operator (either a negated
conjunction containing any name, or a negated named relation), or a
duplicate name, aborts with an error, and a back-reference to a name absent
from the backref map errors when resolved — but these `tregex.py` checks run
per anchor during the inline match, so they are skipped when no anchor
reaches them. -/
theorem claim_C5_name_errors (this : Tree) (tn : Option String) (n : String)
    (f g : Tree → List Tree) (cs rest : List CondElem) (a : AndCond)
    (hmem : some n ∈ namesOfList cs)
    (hname : a.namedNodes.name = some n) (hneg : a.isNegated = true) :
    mkAnd [.rel (some n) f, .rel (some n) g] =
      .error "Variable was declared twice in the scope of the same conjunction."
    ∧ curNode this tn (.notAnd cs :: rest) =
      .error "Error!!  It is invalid to name a node that is under the scope of a negation operator."
    ∧ curNode this tn (.and1 a :: rest) =
      .error "Error!!  It is invalid to name a node that is under the scope of a negation operator."
    ∧ getNodes [] n =
      .error "Error!!  There is no matched node!  Did you specify such a label in the pattern?" := by
  refine ⟨?_, ?_, ?_, rfl⟩
  · simp [mkAnd, checkNameFold, checkNameOne]
  · have hany : (namesOfList cs).any Option.isSome = true := by
      rw [List.any_eq_true]
      exact ⟨some n, hmem, rfl⟩
    simp only [curNode, curNodeLoop, nameCheck, hany, if_true]
  · simp only [curNode, curNodeLoop, nameCheck, hname, hneg, if_true]

/-- Claim C5 witness: the three erroring paths at concrete inputs. -/
theorem claim_C5_name_errors_witness :
    mkAnd [.rel (some "a") (fun _ => []), .rel (some "a") (fun _ => [])] =
      .error "Variable was declared twice in the scope of the same conjunction."
    ∧ curNode (Tree.node (some "A") []) none
        [.notAnd [.and1 ⟨fun _ _ => true, true, false, ⟨some "b", ([] : List Tree)⟩⟩]] =
      .error "Error!!  It is invalid to name a node that is under the scope of a negation operator."
    ∧ curNode (Tree.node (some "A") []) none
        [.and1 ⟨fun _ _ => true, true, false, ⟨some "b", ([] : List Tree)⟩⟩] =
      .error "Error!!  It is invalid to name a node that is under the scope of a negation operator."
    ∧ getNodes [] "b" =
      .error "Error!!  There is no matched node!  Did you specify such a label in the pattern?" := by
  have h := claim_C5_name_errors (Tree.node (some "A") []) none "b"
    (fun _ => []) (fun _ => [])
    [.and1 ⟨fun _ _ => true, true, false, ⟨some "b", ([] : List Tree)⟩⟩] []
    ⟨fun _ _ => true, true, false, ⟨some "b", ([] : List Tree)⟩⟩
    (by simp [namesOfList, namesOfElem]) rfl rfl
  have h2 := claim_C5_name_errors (Tree.node (some "A") []) none "a"
    (fun _ => []) (fun _ => [])
    [.and1 ⟨fun _ _ => true, true, false, ⟨some "a", ([] : List Tree)⟩⟩] []
    ⟨fun _ _ => true, true, false, ⟨some "a", ([] : List Tree)⟩⟩
    (by simp [namesOfList, namesOfElem]) rfl rfl
  exact ⟨h2.1, h.2.1, h.2.2.1, h.2.2.2⟩

/-- Claim C6 counterexample: evaluating the REGEX predicate on `/a/m` (a
regex whose trailing flag `m` is neither `i` nor `x`) at a node whose label
is present does not fail before matching: `condition.py`'s
`NODE_REGEX.satisfies` raises its unsupported-flag error during evaluation,
while `tregex.py`'s `match_regex` silently accepts the flag and succeeds
during evaluation — so the bad flag is not a compile-time failure in either
matcher. -/
theorem claim_C6_counterexample :
    NODE_REGEX_satisfies (fun p v => p == "(?m)a" && v == "a")
        (Tree.node (some "a") []) "/a/m" false false =
      .error "Error!! Unsupported regexp flag"
    ∧ tregexMatchRegex (fun p v => p == "(?m)a" && v == "a")
        (Tree.node (some "a") []) "/a/m" false false =
      .ok true :=
  ⟨rfl, rfl⟩

/-- The `NODE_REGEX.satisfies` flag loop succeeds on a reversed flag suffix
made only of `x` and `i`, stopping at the closing slash. -/
theorem stripChecked_good :
    ∀ (flagsRev : List Char) (acc rest : List Char),
      (∀ c ∈ flagsRev, c = 'x' ∨ c = 'i') →
      stripRegexFlagsChecked (flagsRev ++ '/' :: rest) acc =
        .ok (('/' :: rest).reverse, acc ++ flagsRev) := by
  intro flagsRev
  induction flagsRev with
  | nil => intro acc rest _; simp [stripRegexFlagsChecked]
  | cons c cs ih =>
    intro acc rest hgood
    have hc := hgood c (by simp)
    have hslash : ¬(c = '/') := by
      rcases hc with rfl | rfl <;> simp
    simp only [List.cons_append, stripRegexFlagsChecked, if_neg hslash, if_pos hc]
    simp only [List.append_eq]
    rw [ih (acc ++ [c]) rest (fun d hd => hgood d (by simp [hd]))]
    simp

/-- The `NODE_REGEX.satisfies` flag loop raises the unsupported-flag error as
soon as the reversed flag suffix contains a character other than `x` and `i`
(slashes excluded from the suffix). -/
theorem stripChecked_bad :
    ∀ (flagsRev : List Char) (acc rest : List Char),
      (∃ c ∈ flagsRev, ¬(c = 'x' ∨ c = 'i')) →
      (∀ c ∈ flagsRev, ¬(c = '/')) →
      stripRegexFlagsChecked (flagsRev ++ '/' :: rest) acc =
        .error "Error!! Unsupported regexp flag" := by
  intro flagsRev
  induction flagsRev with
  | nil =>
    intro acc rest hex _
    obtain ⟨c, hc, _⟩ := hex
    exact absurd hc (by simp)
  | cons c cs ih =>
    intro acc rest hex hns
    have hslash : ¬(c = '/') := hns c (by simp)
    by_cases hgood : c = 'x' ∨ c = 'i'
    · simp only [List.cons_append, stripRegexFlagsChecked, if_neg hslash, if_pos hgood]
      obtain ⟨d, hd, hdbad⟩ := hex
      rcases List.mem_cons.mp hd with rfl | hmem
      · exact absurd hgood hdbad
      · exact ih (acc ++ [c]) rest ⟨d, hmem, hdbad⟩ (fun e he => hns e (by simp [he]))
    · simp only [List.cons_append, stripRegexFlagsChecked, if_neg hslash, if_neg hgood]

/-- The `match_regex` flag loop accepts any reversed flag suffix free of
slashes, stopping at the closing slash. -/
theorem stripUnchecked_ok :
    ∀ (flagsRev : List Char) (acc rest : List Char),
      (∀ c ∈ flagsRev, ¬(c = '/')) →
      stripRegexFlagsUnchecked (flagsRev ++ '/' :: rest) acc =
        .ok (('/' :: rest).reverse, acc ++ flagsRev) := by
  intro flagsRev
  induction flagsRev with
  | nil => intro acc rest _; simp [stripRegexFlagsUnchecked]
  | cons c cs ih =>
    intro acc rest hns
    have hslash : ¬(c = '/') := hns c (by simp)
    simp only [List.cons_append, stripRegexFlagsUnchecked, if_neg hslash]
    simp only [List.append_eq]
    rw [ih (acc ++ [c]) rest (fun d hd => hns d (by simp [hd]))]
    simp

/-- The reversed character data of a well-formed regex literal
`"/" ++ body ++ "/" ++ flags`. -/
theorem regexLiteral_data_reverse (body flags : String) :
    ("/" ++ body ++ "/" ++ flags).data.reverse =
      flags.data.reverse ++ '/' :: (body.data.reverse ++ ['/']) := by
  have : ("/" ++ body ++ "/" ++ flags).data =
      '/' :: body.data ++ '/' :: flags.data := by
    simp [String.data_append]
  rw [this]
  simp

/-- Claim C6 as amended: for a regex literal `/body/flags` evaluated at a
node whose selected attribute is present, `condition.py`'s
`NODE_REGEX.satisfies` succeeds exactly when every trailing flag is `i` or
`x` and raises its unsupported-flag error (at evaluation time, not compile
time) otherwise, while `tregex.py`'s `match_regex` performs no validation
and succeeds for any flags. -/
theorem claim_C6_regex_flags (rs : String → String → Bool) (t : Tree)
    (body flags : String) (neg bc : Bool) (v : String)
    (_hb : ∀ c ∈ body.data, ¬(c = '/'))
    (hf : ∀ c ∈ flags.data, ¬(c = '/'))
    (ha : getAttr t bc = some v) :
    NODE_REGEX_satisfies rs t ("/" ++ body ++ "/" ++ flags) neg bc =
      (if ∀ c ∈ flags.data, c = 'x' ∨ c = 'i' then
        .ok ((rs (String.mk (assembleRegex ('/' :: (body.data ++ ['/']))
          flags.data.reverse)) v) != neg)
      else .error "Error!! Unsupported regexp flag")
    ∧ tregexMatchRegex rs t ("/" ++ body ++ "/" ++ flags) neg bc =
      .ok ((rs (String.mk (assembleRegex ('/' :: (body.data ++ ['/']))
        flags.data.reverse)) v) != neg) := by
  have hcore : ('/' :: (body.data.reverse ++ ['/'])).reverse =
      '/' :: (body.data ++ ['/']) := by simp
  constructor
  · simp only [NODE_REGEX_satisfies, ha, regexLiteral_data_reverse]
    by_cases hall : ∀ c ∈ flags.data, c = 'x' ∨ c = 'i'
    · rw [if_pos hall]
      rw [stripChecked_good flags.data.reverse []
        (body.data.reverse ++ ['/'])
        (fun c hc => hall c (List.mem_reverse.mp hc))]
      rw [hcore]
      simp
    · rw [if_neg hall]
      push_neg at hall
      obtain ⟨c, hc, hcbad⟩ := hall
      rw [stripChecked_bad flags.data.reverse []
        (body.data.reverse ++ ['/'])
        ⟨c, List.mem_reverse.mpr hc, by tauto⟩
        (fun d hd => hf d (List.mem_reverse.mp hd))]
  · simp only [tregexMatchRegex, ha, regexLiteral_data_reverse]
    rw [stripUnchecked_ok flags.data.reverse []
      (body.data.reverse ++ ['/'])
      (fun d hd => hf d (List.mem_reverse.mp hd))]
    rw [hcore]
    simp

/-- Claim C6 witness: with the concrete bad flag `m` on `/a/m` and a node
labeled `a`, the validating predicate errors at evaluation while the
unvalidated `match_regex` succeeds. -/
theorem claim_C6_regex_flags_witness :
    NODE_REGEX_satisfies (fun p v => p == "(?m)a" && v == "a")
        (Tree.node (some "a") []) ("/" ++ "a" ++ "/" ++ "m") false false =
      (if ∀ c ∈ "m".data, c = 'x' ∨ c = 'i' then
        .ok (((fun (p v : String) => p == "(?m)a" && v == "a")
          (String.mk (assembleRegex ('/' :: ("a".data ++ ['/'])) "m".data.reverse)) "a") != false)
      else .error "Error!! Unsupported regexp flag")
    ∧ tregexMatchRegex (fun p v => p == "(?m)a" && v == "a")
        (Tree.node (some "a") []) ("/" ++ "a" ++ "/" ++ "m") false false =
      .ok (((fun (p v : String) => p == "(?m)a" && v == "a")
        (String.mk (assembleRegex ('/' :: ("a".data ++ ['/'])) "m".data.reverse)) "a") != false) :=
  claim_C6_regex_flags (fun p v => p == "(?m)a" && v == "a")
    (Tree.node (some "a") []) "a" "m" false false "a"
    (by decide) (by decide) rfl

/-- Claim C7: for every node whose selected attribute (label, or
basic_category under `@`) is absent, the ID and REGEX node predicates — in
both `condition.py` and `tregex.py` — evaluate to the negation flag: false
when the description group is not negated and true when it is. -/
theorem claim_C7_absent_attribute (rs : String → String → Bool) (t : Tree)
    (id rx : String) (neg bc : Bool) (h : getAttr t bc = none) :
    NODE_ID_satisfies t id neg bc = neg
    ∧ tregexMatchId t id neg bc = neg
    ∧ NODE_REGEX_satisfies rs t rx neg bc = .ok neg
    ∧ tregexMatchRegex rs t rx neg bc = .ok neg := by
  refine ⟨?_, ?_, ?_, ?_⟩ <;>
    simp [NODE_ID_satisfies, tregexMatchId, NODE_REGEX_satisfies, tregexMatchRegex, h]

/-- Claim C7 witness: on a labelless node, ID and REGEX predicates return
exactly the negation flag. -/
theorem claim_C7_absent_attribute_witness :
    NODE_ID_satisfies (Tree.node none []) "NP" true false = true
    ∧ NODE_REGEX_satisfies (fun _ _ => true) (Tree.node none []) "/N/" false false = .ok false := by
  have h1 := claim_C7_absent_attribute (fun _ _ => true) (Tree.node none []) "NP" "/N/" true false rfl
  have h2 := claim_C7_absent_attribute (fun _ _ => true) (Tree.node none []) "NP" "/N/" false false rfl
  exact ⟨h1.1, h2.2.2.1⟩

/-- Claim C8 counterexample: the parser's `relation_data : '!' relation_data`
and `relation_data : '?' relation_data` actions can both fire on one relation
(surface form `!?<`), leaving a descriptor with `is_negated` and
`is_optional` both true, and evaluating it at an anchor reaches the
supposedly unreachable error branch of `match_and_condition`. -/
theorem claim_C8_counterexample :
    matchAndCondition (Tree.node (some "A") []) none
        (mkAndCondition
          (RelData.toggleNegated (RelData.toggleOptional (mkRelationData (fun _ _ => true))))
          ⟨none, [Tree.node (some "B") []]⟩) =
      .error "Error!!  Node cannot be both negated and optional." := rfl

/-- Claim C8 as amended: descriptors with both flags set are reachable
through the parser's toggle actions, and for every such descriptor
`match_and_condition` aborts with the both-flags error instead of producing
a match, so no match count or binding ever arises from one. -/
theorem claim_C8_both_flags_error (this : Tree) (tn : Option String) (a : AndCond)
    (hneg : a.isNegated = true) (hopt : a.isOptional = true) :
    matchAndCondition this tn a = .error "Error!!  Node cannot be both negated and optional." := by
  simp [matchAndCondition, hneg, hopt]

/-- Claim C8 witness: the double-toggled descriptor built by the `!` and `?`
parser actions satisfies both flag hypotheses and errors. -/
theorem claim_C8_both_flags_error_witness :
    matchAndCondition (Tree.node (some "A") []) none
        (mkAndCondition
          (RelData.toggleNegated (RelData.toggleOptional (mkRelationData (fun _ _ => false))))
          ⟨some "n", []⟩) =
      .error "Error!!  Node cannot be both negated and optional." :=
  claim_C8_both_flags_error (Tree.node (some "A") []) none _ rfl rfl

/-- Python's `any` evaluates the generator element-wise, so pointwise equal
element computations give the same answer. -/
theorem anyE_congr (f g : α → Except String Bool) :
    ∀ l : List α, (∀ x ∈ l, f x = g x) → anyE f l = anyE g l := by
  intro l
  induction l with
  | nil => intro _; rfl
  | cons a rest ih =>
    intro h
    simp only [anyE, h a (by simp)]
    cases g a with
    | error e => rfl
    | ok b =>
      by_cases hb : b = true
      · simp [hb]
      · simp only [Bool.not_eq_true] at hb
        simp only [hb, Bool.false_eq_true, if_false]
        exact ih (fun x hx => h x (by simp [hx]))

/-- When every element computation can only produce `false`, `any` returns
false whenever it returns at all. -/
theorem anyE_ok_false (g : α → Except String Bool)
    (hg : ∀ x b, g x = .ok b → b = false) :
    ∀ (l : List α) (b : Bool), anyE g l = .ok b → b = false := by
  intro l
  induction l with
  | nil =>
    intro b h
    simp only [anyE, Except.ok.injEq] at h
    exact h.symm
  | cons a rest ih =>
    intro b h
    simp only [anyE] at h
    cases hf : g a with
    | error e => rw [hf] at h; exact absurd h (by simp)
    | ok bb =>
      rw [hf] at h
      have hb := hg a bb hf
      subst hb
      simp only [Bool.false_eq_true, if_false] at h
      exact ih b h

/-- `filter` over the single-candidate stream of a non-recursive search. -/
theorem filterE_singleton (p : α → Except String Bool) (a : α) :
    filterE p [a] = (match p a with
                     | .error e => .error e
                     | .ok b => .ok (if b then [a] else [])) := by
  simp only [filterE]

/-- Claim C9 counterexample: with the default `recursive=True`, the iterator
interface of `NodeDescriptions` searches the whole subtree, so at a root
labeled `b` with a child labeled `a`, `satisfies` is false while
`searchNodeIterator` yields the child — the two interfaces disagree. -/
theorem claim_C9_counterexample :
    ndSatisfies (fun _ _ => false) (fun _ => false)
        ⟨[⟨.id, "a"⟩], false, false, none, none⟩
        (Tree.node (some "b") [Tree.node (some "a") []]) = .ok false
    ∧ ndSearch (fun _ _ => false) (fun _ => false)
        ⟨[⟨.id, "a"⟩], false, false, none, none⟩
        (Tree.node (some "b") [Tree.node (some "a") []]) true none =
      .ok ([Tree.node (some "a") []], none) :=
  ⟨rfl, rfl⟩

/-- Claim C9 as amended: `AbstractCondition.satisfies` is by definition the
non-emptiness of its `searchNodeIterator`; for `NodeDescriptions`, whenever
both interfaces return without raising, `satisfies(t)` agrees with
non-emptiness of `searchNodeIterator(t, recursive=False)` — the
single-anchor iterator — while with `recursive=True` the iterator ranges
over the whole subtree and can yield nodes although `satisfies(t)` is false. -/
theorem claim_C9_satisfies_iterator (rs : String → String → Bool) (pn : Tree → Bool)
    (pc : PCond) (u : Tree) (d : NodeDescs) (t : Tree)
    (b : Bool) (l : List Tree) (s' : BackRefState)
    (hsat : ndSatisfies rs pn d t = .ok b)
    (hsearch : ndSearch rs pn d t false none = .ok (l, s')) :
    (pSatisfies pc u = true ↔ pSearch pc u ≠ [])
    ∧ (b = true ↔ l ≠ []) := by
  constructor
  · simp [pSatisfies, List.isEmpty_iff]
  · obtain ⟨descs, un, ubc, cond, nm⟩ := d
    cases cond with
    | none =>
      simp only [ndSatisfies, ndSearch] at hsat hsearch
      have hl : (if false = true then t.preorder else [t]) = [t] := by simp
      rw [hl, filterE_singleton] at hsearch
      rw [hsat] at hsearch
      simp only [Except.ok.injEq, Prod.mk.injEq] at hsearch
      rw [← hsearch.1]
      cases b with
      | true => simp
      | false => simp
    | some p =>
      obtain ⟨conds, condNames⟩ := p
      simp only [ndSatisfies, ndSearch] at hsat hsearch
      split at hsearch
      · exact absurd hsearch (by simp)
      · have hl : (if false = true then t.preorder else [t]) = [t] := by simp
        rw [hl, filterE_singleton] at hsearch
        cases hig : ndIgnoreCond rs pn ⟨descs, un, ubc, some (conds, condNames), nm⟩ t with
        | error e =>
          rw [hig] at hsearch
          exact absurd hsearch (by simp)
        | ok a =>
          rw [hig] at hsearch
          simp only [Except.ok.injEq, Prod.mk.injEq] at hsearch
          have hig' := hig
          simp only [ndIgnoreCond] at hig'
          by_cases hq : (pSearchAnd conds [t]).isEmpty = true
          · have hb : b = false := by
              refine anyE_ok_false _ ?_ descs b hsat
              intro x bb hx
              cases hdx : descSatisfies rs pn x t un ubc with
              | error e => rw [hdx] at hx; exact absurd hx (by simp)
              | ok b2 =>
                rw [hdx] at hx
                simp only [Except.ok.injEq] at hx
                rw [← hx, hq]
                simp
            subst hb
            rw [← hsearch.1]
            have hempty : pSearchAnd conds [t] = [] := by
              simpa [List.isEmpty_iff] using hq
            cases a <;> simp [hempty]
          · have hq' : (!(pSearchAnd conds [t]).isEmpty) = true := by
              simp only [Bool.not_eq_true'] at hq ⊢
              simpa using hq
            have hb : b = a := by
              have heq : anyE (fun desc =>
                  match descSatisfies rs pn desc t un ubc with
                  | .error e => .error e
                  | .ok bb => .ok (bb && !(pSearchAnd conds [t]).isEmpty)) descs =
                  anyE (fun desc => descSatisfies rs pn desc t un ubc) descs := by
                refine anyE_congr _ _ descs (fun x _ => ?_)
                cases descSatisfies rs pn x t un ubc with
                | error e => rfl
                | ok bb => simp [hq']
              rw [heq] at hsat
              rw [hsat] at hig'
              simpa using hig'
            subst hb
            rw [← hsearch.1]
            have hne : pSearchAnd conds [t] ≠ [] := by
              simpa [List.isEmpty_iff] using hq
            cases b <;> simp [hne]

/-- Claim C9 witness: a node labeled `a` both satisfies the description group
and is yielded by the non-recursive iterator; the `AbstractCondition` part is
instantiated at an empty relation leaf. -/
theorem claim_C9_satisfies_iterator_witness :
    (pSatisfies (.rel none (fun _ => [])) (Tree.node (some "b") []) = true ↔
      pSearch (.rel none (fun _ => [])) (Tree.node (some "b") []) ≠ [])
    ∧ (true = true ↔ ([Tree.node (some "a") []] : List Tree) ≠ []) :=
  claim_C9_satisfies_iterator (fun _ _ => false) (fun _ => false)
    (.rel none (fun _ => [])) (Tree.node (some "b") [])
    ⟨[⟨.id, "a"⟩], false, false, none, none⟩ (Tree.node (some "a") [])
    true [Tree.node (some "a") []] none rfl rfl

/-- Claim C10: each `searchNodeIterator` call on a `NodeDescriptions` wired
to a `BackRef` holder only appends the newly matched nodes to the holder's
node list (initializing it when it is `None`): the new state is exactly the
old list extended with this call's results, so earlier entries keep their
positions. -/
theorem claim_C10_backref_append (rs : String → String → Bool) (pn : Tree → Bool)
    (d : NodeDescs) (t : Tree) (rec : Bool) (s : Option (List Tree))
    (l : List Tree) (s' : BackRefState)
    (h : ndSearch rs pn d t rec (some s) = .ok (l, s')) :
    s' = some (some (s.getD [] ++ l))
    ∧ ∀ i, i < (s.getD []).length → (s.getD [] ++ l)[i]? = (s.getD [])[i]? := by
  have hs : s' = some (some (s.getD [] ++ l)) := by
    obtain ⟨descs, un, ubc, cond, nm⟩ := d
    cases cond with
    | none =>
      simp only [ndSearch] at h
      split at h
      · exact absurd h (by simp)
      · simp only [Except.ok.injEq, Prod.mk.injEq] at h
        obtain ⟨h1, h2⟩ := h
        subst h1
        rw [← h2]
        simp [backrefUpdate]
    | some p =>
      obtain ⟨conds, condNames⟩ := p
      simp only [ndSearch] at h
      split at h
      · exact absurd h (by simp)
      · split at h
        · exact absurd h (by simp)
        · simp only [Except.ok.injEq, Prod.mk.injEq] at h
          obtain ⟨h1, h2⟩ := h
          subst h1
          rw [← h2]
          simp [backrefUpdate]
  refine ⟨hs, fun i hi => ?_⟩
  exact List.getElem?_append_left hi

/-- Claim C10 witness: a concrete search through a wired holder with one
accumulated node appends exactly the one new match after it. -/
theorem claim_C10_backref_append_witness :
    (some (some ([Tree.node (some "old") []] ++ [Tree.node (some "a") []])) : BackRefState) =
      some (some [Tree.node (some "old") [], Tree.node (some "a") []])
    ∧ ndSearch (fun _ _ => false) (fun _ => false)
        ⟨[⟨.id, "a"⟩], false, false, none, none⟩ (Tree.node (some "a") []) false
        (some (some [Tree.node (some "old") []])) =
      .ok ([Tree.node (some "a") []],
           some (some [Tree.node (some "old") [], Tree.node (some "a") []])) := by
  have h := claim_C10_backref_append (fun _ _ => false) (fun _ => false)
    ⟨[⟨.id, "a"⟩], false, false, none, none⟩ (Tree.node (some "a") []) false
    (some [Tree.node (some "old") []]) [Tree.node (some "a") []]
    (some (some [Tree.node (some "old") [], Tree.node (some "a") []])) rfl
  exact ⟨h.1.symm, rfl⟩

end Pytregex
